import Mathlib

/-!
Verification of the access-control and record-management core of the
university project vault (service module `projectService` together with the
`AccessLevel` / `ProjectData` data model of `blockchain.ts`).

The embedding is shallow: the zustand store is a `ProjectStore` value threaded
explicitly, `Math.random`-driven fabrication takes the random draws as
parameters, the asynchronous summarizer call is represented by its outcome
(`Except Unit (Option String)`), and the directory lookup
`getStudentByWallet` (whose implementation lives outside the analysed
sources) is an abstract parameter.  JavaScript string truthiness (empty
string is falsy) is modelled by `optTruthy` / explicit `== ""` tests.
-/

/-- The `AccessLevel` enum of `blockchain.ts`: `Public = 0`, `Restricted = 1`,
`Private = 2`. -/
inductive AccessLevel where
  | Public
  | Restricted
  | Private
deriving DecidableEq, Repr

/-- Modelled from the spec: the service module refers to the middle access
tag as `Institution` while `blockchain.ts` names the tag with value 1
`Restricted`; the spec identifies the two names ("`Institution` ...
historically also called `Restricted`"). -/
def AccessLevel.Institution : AccessLevel := AccessLevel.Restricted

/-- A project record.  Fields `id` .. `accessLevel` are the `ProjectData`
interface of `blockchain.ts`; `institutionId`, `creatorAddress` and
`aiSummary` are the additional fields written and read by the service module
(modelled from the spec's data model: `institutionId`, `creatorIdentity`,
optional `summary`). -/
structure ProjectData where
  id : Nat
  title : String
  authors : List String
  uploadDate : Nat
  ipfsHash : String
  departmentId : Nat
  institutionId : Nat
  year : Nat
  description : String
  accessLevel : AccessLevel
  creatorAddress : String
  aiSummary : Option String
deriving DecidableEq, Repr

/-- Modelled from the spec: the directory entry returned by
`getStudentByWallet` — an identity resolves to an `(institutionId,
departmentId)` affiliation. -/
structure Student where
  institutionId : Nat
  departmentId : Nat
deriving DecidableEq, Repr

/-- Modelled from the spec: the directory lookup
`resolve(identity) -> Optional(institutionId, departmentId)`
(`getStudentByWallet` of `studentService`, not among the analysed sources). -/
def Directory : Type := String → Option Student

/-- The zustand project store state: the ordered collection of records. -/
structure ProjectStore where
  projects : List ProjectData
deriving DecidableEq, Repr

/-- Store method `getProjects`. -/
def ProjectStore.getProjects (s : ProjectStore) : List ProjectData :=
  s.projects

/-- Store method `addProject`: the new project is prepended
(`[project, ...state.projects]`). -/
def ProjectStore.addProject (s : ProjectStore) (project : ProjectData) :
    ProjectStore :=
  ⟨project :: s.projects⟩

/-- JavaScript truthiness of an optional string (`undefined`, `null` and the
empty string are falsy). -/
def optTruthy : Option String → Bool
  | none => false
  | some s => s != ""

/-- The character set used by `generateMockIpfsHash`. -/
def characters : List Char :=
  "ABCDEFGHIJKLMNOPQRSTUVWXYZabcdefghijklmnopqrstuvwxyz0123456789".toList

theorem characters_length : characters.length = 62 := by decide

/-- `generateMockIpfsHash`: the fixed prefix `Qm` followed by 44 characters
drawn from `characters`.  Each call `Math.floor(Math.random() * 62)` is
modelled by `rand i : Fin 62`. -/
def generateMockIpfsHash (rand : Nat → Fin 62) : String :=
  String.mk ('Q' :: 'm' ::
    (List.range 44).map (fun i =>
      characters.get (Fin.cast characters_length.symm (rand i))))

/-- `createProject`.  Extra model inputs: `dir` is the directory lookup,
`rand` the random draws of `generateMockIpfsHash`, `frac` the value of
`Math.random().toString(16).substring(2, 42)` used for the fabricated
author, `now` the value of `Date.now()`, and `store` the current store
state read through `useProjectStore.getState()`.  The source's defaulted
parameters `ipfsHash = ''` and `authorAddress = ''` are passed explicitly. -/
def createProject (dir : Directory) (rand : Nat → Fin 62) (frac : String)
    (now : Nat) (title description : String) (departmentId year : Nat)
    (accessLevel : AccessLevel) (ipfsHash authorAddress : String)
    (store : ProjectStore) : ProjectData :=
  let maxId := ((store.projects.map (fun p => p.id)).foldr Nat.max 0)
  let newId := maxId + 1
  let hash := if ipfsHash == "" then generateMockIpfsHash rand else ipfsHash
  let author := if authorAddress == "" then "0x" ++ frac else authorAddress
  let student := dir author
  let studentDepartmentId :=
    match student with
    | some st => st.departmentId
    | none => departmentId
  let institutionId :=
    match student with
    | some st => st.institutionId
    | none => 1
  { id := newId
    title := title
    description := description
    departmentId := studentDepartmentId
    institutionId := institutionId
    year := year
    accessLevel := accessLevel
    ipfsHash := hash
    authors := [author]
    uploadDate := now
    creatorAddress := author
    aiSummary := none }

/-- `addProject`: if the record has no (truthy) `aiSummary`, the summarizer
is consulted; a thrown error (`Except.error`) is caught and a falsy result
is ignored, so the record is inserted unchanged in those cases.  The record
is always inserted at the front of the store.  `summ` is the outcome of the
awaited `generateProjectSummary` call. -/
def addProject (summ : Except Unit (Option String)) (project : ProjectData)
    (store : ProjectStore) : ProjectStore :=
  let enriched :=
    if optTruthy project.aiSummary then project
    else
      match summ with
      | Except.ok summary =>
          if optTruthy summary then { project with aiSummary := summary }
          else project
      | Except.error _ => project
  store.addProject enriched

/-- `getAllProjects`: list the store with access control applied.
`userAddress` is the optional viewer identity (`string | null | undefined`
collapsed into `Option String`; a present empty string is falsy and hence
anonymous, as in the source). -/
def getAllProjects (dir : Directory) (userAddress : Option String)
    (store : ProjectStore) : List ProjectData :=
  let projects := store.getProjects
  if optTruthy userAddress then
    let u := userAddress.getD ""
    let student := dir u
    projects.filter (fun project =>
      if project.accessLevel = AccessLevel.Public then true
      else if project.authors.contains u then true
      else if project.accessLevel = AccessLevel.Institution ∧
          (match student with
           | some st => project.institutionId == st.institutionId
           | none => false) = true then true
      else false)
  else
    projects.filter (fun project =>
      project.accessLevel = AccessLevel.Public)

/-- `getAllProjectsAdmin`: the unfiltered listing. -/
def getAllProjectsAdmin (store : ProjectStore) : List ProjectData :=
  store.getProjects

/-- `getProjectById`: find the record by id, then apply the same access
check as `getAllProjects`; both "no such id" and "no access" yield `none`. -/
def getProjectById (dir : Directory) (id : Nat) (userAddress : Option String)
    (store : ProjectStore) : Option ProjectData :=
  let projects := store.getProjects
  let found := projects.find? (fun project => project.id == id)
  let student :=
    if optTruthy userAddress then dir (userAddress.getD "") else none
  match found with
  | none => none
  | some project =>
      if project.accessLevel = AccessLevel.Public ∨
          (optTruthy userAddress ∧
            project.authors.contains (userAddress.getD "")) ∨
          (project.accessLevel = AccessLevel.Institution ∧
            (match student with
             | some st => project.institutionId == st.institutionId
             | none => false) = true) then
        some project
      else none

/-- `updateProject`: map over the collection, substituting the record whose
`id` matches; the new collection replaces the old state wholesale. -/
def updateProject (updatedProject : ProjectData) (store : ProjectStore) :
    ProjectStore :=
  ⟨store.projects.map (fun project =>
    if project.id = updatedProject.id then updatedProject else project)⟩

/-! ### Basic facts about the embedding -/

theorem optTruthy_of_ne (v : String) (hv : v ≠ "") :
    optTruthy (some v) = true := by
  simp [optTruthy, bne_iff_ne]
  exact hv

theorem instMatch_iff (dir : Directory) (v : String) (r : ProjectData) :
    ((match dir v with
      | some st => r.institutionId == st.institutionId
      | none => false) = true) ↔
      ∃ st, dir v = some st ∧ r.institutionId = st.institutionId := by
  cases hd : dir v with
  | none => simp
  | some st => simp [beq_iff_eq]

theorem visPred_iff (dir : Directory) (v : String) (r : ProjectData) :
    ((if r.accessLevel = AccessLevel.Public then true
      else if r.authors.contains v then true
      else if r.accessLevel = AccessLevel.Institution ∧
          (match dir v with
           | some st => r.institutionId == st.institutionId
           | none => false) = true then true
      else false) = true) ↔
      (r.accessLevel = AccessLevel.Public ∨ v ∈ r.authors ∨
        (r.accessLevel = AccessLevel.Institution ∧
          ∃ st, dir v = some st ∧ r.institutionId = st.institutionId)) := by
  split_ifs with h1 h2 h3
  · exact iff_of_true rfl (Or.inl h1)
  · exact iff_of_true rfl (Or.inr (Or.inl (List.elem_iff.mp h2)))
  · exact iff_of_true rfl
      (Or.inr (Or.inr ⟨h3.1, (instMatch_iff dir v r).mp h3.2⟩))
  · refine iff_of_false (by simp) ?_
    rintro (h | h | h)
    · exact h1 h
    · exact h2 (List.elem_iff.mpr h)
    · exact h3 ⟨h.1, (instMatch_iff dir v r).mpr h.2⟩

theorem mem_getAllProjects_of_truthy (dir : Directory) (v : String)
    (hv : v ≠ "") (s : ProjectStore) (r : ProjectData) :
    r ∈ getAllProjects dir (some v) s ↔
      r ∈ s.projects ∧
        (r.accessLevel = AccessLevel.Public ∨ v ∈ r.authors ∨
          (r.accessLevel = AccessLevel.Institution ∧
            ∃ st, dir v = some st ∧ r.institutionId = st.institutionId)) := by
  have hv' : optTruthy (some v) = true := optTruthy_of_ne v hv
  simp only [getAllProjects, hv', if_true, ProjectStore.getProjects,
    Option.getD_some, List.mem_filter]
  exact and_congr_right fun _ => visPred_iff dir v r

theorem mem_getAllProjects_of_falsy (dir : Directory) (u : Option String)
    (hu : optTruthy u = false) (s : ProjectStore) (r : ProjectData) :
    r ∈ getAllProjects dir u s ↔
      r ∈ s.projects ∧ r.accessLevel = AccessLevel.Public := by
  simp [getAllProjects, hu, ProjectStore.getProjects, List.mem_filter]

theorem getProjectById_eq_some_iff (dir : Directory) (id : Nat) (v : String)
    (hv : v ≠ "") (s : ProjectStore) (r : ProjectData)
    (hfind : s.projects.find? (fun p => p.id == id) = some r) :
    getProjectById dir id (some v) s = some r ↔
      (r.accessLevel = AccessLevel.Public ∨ v ∈ r.authors ∨
        (r.accessLevel = AccessLevel.Institution ∧
          ∃ st, dir v = some st ∧ r.institutionId = st.institutionId)) := by
  have hv' : optTruthy (some v) = true := optTruthy_of_ne v hv
  have hC : (r.accessLevel = AccessLevel.Public ∨
      (optTruthy (some v) ∧ r.authors.contains ((some v).getD "")) ∨
      (r.accessLevel = AccessLevel.Institution ∧
        (match (if optTruthy (some v) then dir ((some v).getD "") else none) with
         | some st => r.institutionId == st.institutionId
         | none => false) = true)) ↔
      (r.accessLevel = AccessLevel.Public ∨ v ∈ r.authors ∨
        (r.accessLevel = AccessLevel.Institution ∧
          ∃ st, dir v = some st ∧ r.institutionId = st.institutionId)) := by
    rw [hv']
    simp only [if_true, Option.getD_some, true_and]
    constructor
    · rintro (h | h | h)
      · exact Or.inl h
      · exact Or.inr (Or.inl (List.elem_iff.mp h))
      · exact Or.inr (Or.inr ⟨h.1, (instMatch_iff dir v r).mp h.2⟩)
    · rintro (h | h | h)
      · exact Or.inl h
      · exact Or.inr (Or.inl (List.elem_iff.mpr h))
      · exact Or.inr (Or.inr ⟨h.1, (instMatch_iff dir v r).mpr h.2⟩)
  simp only [getProjectById, ProjectStore.getProjects, hfind]
  by_cases hD : (r.accessLevel = AccessLevel.Public ∨ v ∈ r.authors ∨
      (r.accessLevel = AccessLevel.Institution ∧
        ∃ st, dir v = some st ∧ r.institutionId = st.institutionId))
  · rw [if_pos (hC.mpr hD)]
    simp [hD]
  · rw [if_neg (fun hc => hD (hC.mp hc))]
    simp [hD]

theorem getProjectById_eq_some_iff_falsy (dir : Directory) (id : Nat)
    (u : Option String) (hu : optTruthy u = false) (s : ProjectStore)
    (r : ProjectData)
    (hfind : s.projects.find? (fun p => p.id == id) = some r) :
    getProjectById dir id u s = some r ↔
      r.accessLevel = AccessLevel.Public := by
  simp only [getProjectById, ProjectStore.getProjects, hfind, hu]
  by_cases hD : r.accessLevel = AccessLevel.Public
  · simp [hD]
  · simp [hD]

theorem getProjectById_some_or_none (dir : Directory) (id : Nat)
    (u : Option String) (s : ProjectStore) (r : ProjectData)
    (hfind : s.projects.find? (fun p => p.id == id) = some r) :
    getProjectById dir id u s = some r ∨ getProjectById dir id u s = none := by
  simp only [getProjectById, ProjectStore.getProjects, hfind]
  split_ifs <;> simp

/-! ### Claim theorems: the access engine -/

/-- C1: for every record with `accessLevel = Institution` and every viewer
`v` (a concrete identity) with affiliation `dir v`, the visibility decision
applied by `getAllProjects` and by `getProjectById` is true iff `v` is one
of the record's authors, or the affiliation resolves and its
`institutionId` equals the record's `institutionId`. -/
theorem institution_visibility_iff (dir : Directory) (v : String)
    (hv : v ≠ "") (r : ProjectData)
    (hr : r.accessLevel = AccessLevel.Institution) (s : ProjectStore) :
    (r ∈ getAllProjects dir (some v) s ↔
      r ∈ s.projects ∧
        (v ∈ r.authors ∨
          ∃ st, dir v = some st ∧ r.institutionId = st.institutionId)) ∧
    (s.projects.find? (fun p => p.id == r.id) = some r →
      (getProjectById dir r.id (some v) s = some r ↔
        (v ∈ r.authors ∨
          ∃ st, dir v = some st ∧ r.institutionId = st.institutionId))) := by
  have hnp : r.accessLevel ≠ AccessLevel.Public := by rw [hr]; decide
  constructor
  · rw [mem_getAllProjects_of_truthy dir v hv s r]
    constructor
    · rintro ⟨hmem, h | h | h⟩
      · exact absurd h hnp
      · exact ⟨hmem, Or.inl h⟩
      · exact ⟨hmem, Or.inr h.2⟩
    · rintro ⟨hmem, h | h⟩
      · exact ⟨hmem, Or.inr (Or.inl h)⟩
      · exact ⟨hmem, Or.inr (Or.inr ⟨hr, h⟩)⟩
  · intro hfind
    rw [getProjectById_eq_some_iff dir r.id v hv s r hfind]
    constructor
    · rintro (h | h | h)
      · exact absurd h hnp
      · exact Or.inl h
      · exact Or.inr h.2
    · rintro (h | h)
      · exact Or.inr (Or.inl h)
      · exact Or.inr (Or.inr ⟨hr, h⟩)

/-- C2: a listed author (exact string match) always sees the record, in the
listing and in the by-id fetch, whatever the access level and whatever the
directory says. -/
theorem author_always_visible (dir : Directory) (r : ProjectData)
    (a : String) (ha : a ≠ "") (hmem : a ∈ r.authors) (s : ProjectStore) :
    (r ∈ s.projects → r ∈ getAllProjects dir (some a) s) ∧
    (s.projects.find? (fun p => p.id == r.id) = some r →
      getProjectById dir r.id (some a) s = some r) :=
  ⟨fun hin =>
    (mem_getAllProjects_of_truthy dir a ha s r).mpr
      ⟨hin, Or.inr (Or.inl hmem)⟩,
   fun hfind =>
    (getProjectById_eq_some_iff dir r.id a ha s r hfind).mpr
      (Or.inr (Or.inl hmem))⟩

/-- C3: a `Private` record is invisible to every viewer that is not a
listed author — including the absent/anonymous viewer — whatever the
directory says: it is filtered out of `getAllProjects` and
`getProjectById` answers `none` (indistinguishable from not-found). -/
theorem private_invisible (dir : Directory) (r : ProjectData)
    (hr : r.accessLevel = AccessLevel.Private) (v : Option String)
    (hv : ∀ a, v = some a → a ∉ r.authors) (s : ProjectStore) :
    r ∉ getAllProjects dir v s ∧
    (s.projects.find? (fun p => p.id == r.id) = some r →
      getProjectById dir r.id v s = none) := by
  have hnp : r.accessLevel ≠ AccessLevel.Public := by rw [hr]; decide
  have hni : r.accessLevel ≠ AccessLevel.Institution := by rw [hr]; decide
  by_cases ht : optTruthy v = true
  · obtain ⟨a, rfl⟩ : ∃ a, v = some a := by
      cases v with
      | none => simp [optTruthy] at ht
      | some a => exact ⟨a, rfl⟩
    have ha : a ≠ "" := by simpa [optTruthy, bne_iff_ne] using ht
    have hD : ¬(r.accessLevel = AccessLevel.Public ∨ a ∈ r.authors ∨
        (r.accessLevel = AccessLevel.Institution ∧
          ∃ st, dir a = some st ∧ r.institutionId = st.institutionId)) := by
      rintro (h | h | h)
      · exact hnp h
      · exact hv a rfl h
      · exact hni h.1
    constructor
    · intro hmem
      exact hD ((mem_getAllProjects_of_truthy dir a ha s r).mp hmem).2
    · intro hfind
      rcases getProjectById_some_or_none dir r.id (some a) s r hfind
        with h | h
      · exact absurd
          ((getProjectById_eq_some_iff dir r.id a ha s r hfind).mp h) hD
      · exact h
  · have hf : optTruthy v = false := eq_false_of_ne_true ht
    constructor
    · intro hmem
      exact hnp ((mem_getAllProjects_of_falsy dir v hf s r).mp hmem).2
    · intro hfind
      rcases getProjectById_some_or_none dir r.id v s r hfind with h | h
      · exact absurd
          ((getProjectById_eq_some_iff_falsy dir r.id v hf s r hfind).mp h)
          hnp
      · exact h

/-- C4: a `Public` record is visible to every viewer — any identity, any
affiliation, or no identity at all — in the listing and in the by-id
fetch. -/
theorem public_always_visible (dir : Directory) (r : ProjectData)
    (hr : r.accessLevel = AccessLevel.Public) (v : Option String)
    (s : ProjectStore) :
    (r ∈ s.projects → r ∈ getAllProjects dir v s) ∧
    (s.projects.find? (fun p => p.id == r.id) = some r →
      getProjectById dir r.id v s = some r) := by
  by_cases ht : optTruthy v = true
  · obtain ⟨a, rfl⟩ : ∃ a, v = some a := by
      cases v with
      | none => simp [optTruthy] at ht
      | some a => exact ⟨a, rfl⟩
    have ha : a ≠ "" := by simpa [optTruthy, bne_iff_ne] using ht
    exact ⟨fun hin =>
        (mem_getAllProjects_of_truthy dir a ha s r).mpr ⟨hin, Or.inl hr⟩,
      fun hfind =>
        (getProjectById_eq_some_iff dir r.id a ha s r hfind).mpr
          (Or.inl hr)⟩
  · have hf : optTruthy v = false := eq_false_of_ne_true ht
    exact ⟨fun hin =>
        (mem_getAllProjects_of_falsy dir v hf s r).mpr ⟨hin, hr⟩,
      fun hfind =>
        (getProjectById_eq_some_iff_falsy dir r.id v hf s r hfind).mpr hr⟩

/-! ### Concrete fixtures for witnesses -/

/-- A directory in which exactly the identity `0xB` resolves, to
institution 5 / department 2. -/
def dirW : Directory := fun a => if a = "0xB" then some ⟨5, 2⟩ else none

/-- An `Institution`-level record of institution 5, authored by `0xA`. -/
def recInstW : ProjectData :=
  { id := 7, title := "t", authors := ["0xA"], uploadDate := 0,
    ipfsHash := "h", departmentId := 2, institutionId := 5, year := 2024,
    description := "d", accessLevel := AccessLevel.Institution,
    creatorAddress := "0xA", aiSummary := none }

/-- A `Private` record authored by `0xA`. -/
def recPrivW : ProjectData :=
  { recInstW with id := 8, accessLevel := AccessLevel.Private }

/-- A `Public` record. -/
def recPubW : ProjectData :=
  { recInstW with id := 9, accessLevel := AccessLevel.Public }

/-- A store holding the three fixture records. -/
def storeW : ProjectStore := ⟨[recInstW, recPrivW, recPubW]⟩

/-- The empty store. -/
def emptyStore : ProjectStore := ⟨[]⟩

/-- A directory in which no identity resolves. -/
def noDir : Directory := fun _ => none

/-- Witness for C1: viewer `0xB` is not an author of `recInstW` but
resolves to its institution, so both read paths show the record. -/
theorem institution_visibility_iff_witness :
    ("0xB" : String) ≠ "" ∧
    recInstW.accessLevel = AccessLevel.Institution ∧
    recInstW ∈ getAllProjects dirW (some "0xB") storeW ∧
    getProjectById dirW recInstW.id (some "0xB") storeW = some recInstW :=
  ⟨by decide, rfl,
   (institution_visibility_iff dirW "0xB" (by decide) recInstW rfl
       storeW).1.mpr
     ⟨by decide, Or.inr ⟨⟨5, 2⟩, by decide, rfl⟩⟩,
   ((institution_visibility_iff dirW "0xB" (by decide) recInstW rfl
       storeW).2 (by decide)).mpr
     (Or.inr ⟨⟨5, 2⟩, by decide, rfl⟩)⟩

/-- Witness for C2: author `0xA` sees the private record `recPrivW` in both
read paths even though the directory does not resolve `0xA`. -/
theorem author_always_visible_witness :
    ("0xA" : String) ≠ "" ∧
    "0xA" ∈ recPrivW.authors ∧
    recPrivW ∈ getAllProjects dirW (some "0xA") storeW ∧
    getProjectById dirW recPrivW.id (some "0xA") storeW = some recPrivW :=
  ⟨by decide, by decide,
   (author_always_visible dirW recPrivW "0xA" (by decide) (by decide)
       storeW).1 (by decide),
   (author_always_visible dirW recPrivW "0xA" (by decide) (by decide)
       storeW).2 (by decide)⟩

/-- Witness for C3: non-author `0xB` (even though affiliation-resolved) and
the anonymous viewer both fail to see the private record. -/
theorem private_invisible_witness :
    recPrivW.accessLevel = AccessLevel.Private ∧
    "0xB" ∉ recPrivW.authors ∧
    recPrivW ∉ getAllProjects dirW (some "0xB") storeW ∧
    getProjectById dirW recPrivW.id (some "0xB") storeW = none ∧
    recPrivW ∉ getAllProjects dirW none storeW ∧
    getProjectById dirW recPrivW.id none storeW = none :=
  ⟨rfl, by decide,
   (private_invisible dirW recPrivW rfl (some "0xB")
       (fun a ha => by injection ha with h; subst h; decide) storeW).1,
   (private_invisible dirW recPrivW rfl (some "0xB")
       (fun a ha => by injection ha with h; subst h; decide) storeW).2
     (by decide),
   (private_invisible dirW recPrivW rfl none
       (fun a ha => by cases ha) storeW).1,
   (private_invisible dirW recPrivW rfl none
       (fun a ha => by cases ha) storeW).2 (by decide)⟩

/-- Witness for C4: the public record is visible to the anonymous viewer
and to the unresolved identity `0xZ`. -/
theorem public_always_visible_witness :
    recPubW.accessLevel = AccessLevel.Public ∧
    recPubW ∈ getAllProjects dirW none storeW ∧
    getProjectById dirW recPubW.id none storeW = some recPubW ∧
    recPubW ∈ getAllProjects dirW (some "0xZ") storeW ∧
    getProjectById dirW recPubW.id (some "0xZ") storeW = some recPubW :=
  ⟨rfl,
   (public_always_visible dirW recPubW rfl none storeW).1 (by decide),
   (public_always_visible dirW recPubW rfl none storeW).2 (by decide),
   (public_always_visible dirW recPubW rfl (some "0xZ") storeW).1
     (by decide),
   (public_always_visible dirW recPubW rfl (some "0xZ") storeW).2
     (by decide)⟩

/-! ### Identifier assignment -/

theorem le_foldr_max (l : List Nat) : ∀ x ∈ l, x ≤ l.foldr Nat.max 0 := by
  induction l with
  | nil => intro x hx; exact absurd hx (List.not_mem_nil x)
  | cons a t ih =>
    intro x hx
    rcases List.mem_cons.mp hx with rfl | hx
    · exact Nat.le_max_left _ _
    · exact Nat.le_trans (ih x hx) (Nat.le_max_right _ _)

theorem foldr_max_mem_of_ne_nil (l : List Nat) (h : l ≠ []) :
    l.foldr Nat.max 0 ∈ l := by
  induction l with
  | nil => exact absurd rfl h
  | cons a t ih =>
    by_cases ht : t = []
    · subst ht
      show max a 0 ∈ [a]
      rw [max_eq_left (Nat.zero_le a)]
      exact List.mem_singleton_self a
    · have hm := ih ht
      show max a (t.foldr Nat.max 0) ∈ a :: t
      rcases Nat.le_total (t.foldr Nat.max 0) a with hle | hle
      · rw [max_eq_left hle]
        exact List.mem_cons_self a t
      · rw [max_eq_right hle]
        exact List.mem_cons_of_mem a hm

/-- C5: `createProject` assigns an id strictly above every id in the store,
equal to one plus the maximum present id when the store is non-empty, and
equal to 1 on the empty store; with no author supplied the authors list is
exactly the one fabricated identity, and the access level is the one
requested. -/
theorem createProject_assigns_next_id (dir : Directory)
    (rand : Nat → Fin 62) (frac : String) (now : Nat)
    (title description : String) (departmentId year : Nat)
    (accessLevel : AccessLevel) (ipfsHash authorAddress : String)
    (s : ProjectStore) :
    (∀ p ∈ s.projects,
      p.id < (createProject dir rand frac now title description departmentId
        year accessLevel ipfsHash authorAddress s).id) ∧
    (s.projects ≠ [] → ∃ p ∈ s.projects,
      (createProject dir rand frac now title description departmentId
        year accessLevel ipfsHash authorAddress s).id = p.id + 1) ∧
    (s.projects = [] →
      (createProject dir rand frac now title description departmentId
        year accessLevel ipfsHash authorAddress s).id = 1) ∧
    (authorAddress = "" →
      (createProject dir rand frac now title description departmentId
        year accessLevel ipfsHash authorAddress s).authors =
        ["0x" ++ frac]) ∧
    (createProject dir rand frac now title description departmentId
      year accessLevel ipfsHash authorAddress s).accessLevel =
      accessLevel := by
  have hid : (createProject dir rand frac now title description departmentId
      year accessLevel ipfsHash authorAddress s).id =
      ((s.projects.map (fun p => p.id)).foldr Nat.max 0) + 1 := rfl
  refine ⟨?_, ?_, ?_, ?_, rfl⟩
  · intro p hp
    rw [hid]
    exact Nat.lt_succ_of_le
      (le_foldr_max _ _ (List.mem_map_of_mem (fun p => p.id) hp))
  · intro hne
    have hmapne : s.projects.map (fun p => p.id) ≠ [] := by
      simpa using hne
    obtain ⟨p, hp, hpe⟩ :=
      List.mem_map.mp (foldr_max_mem_of_ne_nil _ hmapne)
    exact ⟨p, hp, by rw [hid, hpe]⟩
  · intro he
    rw [hid, he]
    rfl
  · intro ha
    subst ha
    rfl

/-- Witness for C5: on the empty store, `createProject("T","D",1,2024,
Public)` with nothing supplied yields id 1, the single fabricated author
`0xff`, and access level `Public`; on the three-record fixture store every
present id is below the newly assigned one and the new id is a present id
plus one. -/
theorem createProject_assigns_next_id_witness :
    (emptyStore.projects = [] →
      (createProject noDir (fun _ => 0) "ff" 11 "T" "D" 1 2024
        AccessLevel.Public "" "" emptyStore).id = 1) ∧
    ((createProject noDir (fun _ => 0) "ff" 11 "T" "D" 1 2024
        AccessLevel.Public "" "" emptyStore).authors = ["0xff"]) ∧
    ((createProject noDir (fun _ => 0) "ff" 11 "T" "D" 1 2024
        AccessLevel.Public "" "" emptyStore).accessLevel =
      AccessLevel.Public) ∧
    (∀ p ∈ storeW.projects,
      p.id < (createProject noDir (fun _ => 0) "ff" 11 "T" "D" 1 2024
        AccessLevel.Public "" "" storeW).id) ∧
    (storeW.projects ≠ [] → ∃ p ∈ storeW.projects,
      (createProject noDir (fun _ => 0) "ff" 11 "T" "D" 1 2024
        AccessLevel.Public "" "" storeW).id = p.id + 1) :=
  ⟨(createProject_assigns_next_id noDir (fun _ => 0) "ff" 11 "T" "D" 1 2024
      AccessLevel.Public "" "" emptyStore).2.2.1,
   by
    rw [(createProject_assigns_next_id noDir (fun _ => 0) "ff" 11 "T" "D" 1
        2024 AccessLevel.Public "" "" emptyStore).2.2.2.1 rfl]
    decide,
   (createProject_assigns_next_id noDir (fun _ => 0) "ff" 11 "T" "D" 1 2024
      AccessLevel.Public "" "" emptyStore).2.2.2.2,
   (createProject_assigns_next_id noDir (fun _ => 0) "ff" 11 "T" "D" 1 2024
      AccessLevel.Public "" "" storeW).1,
   (createProject_assigns_next_id noDir (fun _ => 0) "ff" 11 "T" "D" 1 2024
      AccessLevel.Public "" "" storeW).2.1⟩

/-- C6: `updateProject` with an id that matches no record leaves the store
exactly as it was — same records, same order, same count — and completes
(it is a total function). -/
theorem updateProject_unknown_id_noop (u : ProjectData) (s : ProjectStore)
    (h : ∀ p ∈ s.projects, p.id ≠ u.id) : updateProject u s = s := by
  unfold updateProject
  have hmap : s.projects.map
      (fun project => if project.id = u.id then u else project) =
      s.projects := by
    have h1 : s.projects.map
        (fun project => if project.id = u.id then u else project) =
        s.projects.map id :=
      List.map_congr_left (fun p hp => if_neg (h p hp))
    rw [h1, List.map_id]
  rw [hmap]

/-- Witness for C6: updating with fresh id 99 leaves the fixture store
untouched. -/
theorem updateProject_unknown_id_noop_witness :
    (∀ p ∈ storeW.projects, p.id ≠ 99) ∧
    updateProject { recInstW with id := 99 } storeW = storeW :=
  ⟨by decide,
   updateProject_unknown_id_noop { recInstW with id := 99 } storeW
     (by decide)⟩

/-! ### Insertion and enrichment -/

theorem addProject_shape (summ : Except Unit (Option String))
    (project : ProjectData) (s : ProjectStore) :
    ∃ q, (addProject summ project s).projects = q :: s.projects ∧
      { q with aiSummary := project.aiSummary } = project ∧
      (∀ t, summ = Except.ok (some t) →
        optTruthy project.aiSummary = false → t ≠ "" →
        q.aiSummary = some t) ∧
      ((summ = Except.error () ∨ summ = Except.ok none) →
        q.aiSummary = project.aiSummary) := by
  by_cases hps : optTruthy project.aiSummary = true
  · refine ⟨project, ?_, rfl, ?_, fun _ => rfl⟩
    · simp [addProject, ProjectStore.addProject, hps]
    · intro t ht hf
      rw [hps] at hf
      exact Bool.noConfusion hf
  · have hps' : optTruthy project.aiSummary = false :=
      eq_false_of_ne_true hps
    rcases summ with e | osum
    · refine ⟨project, ?_, rfl, ?_, fun _ => rfl⟩
      · simp [addProject, ProjectStore.addProject, hps']
      · intro t ht
        exact absurd ht (by simp)
    · rcases osum with _ | t
      · refine ⟨project, ?_, rfl, ?_, fun _ => rfl⟩
        · simp [addProject, ProjectStore.addProject, hps', optTruthy]
        · intro t ht
          exact absurd ht (by simp)
      · by_cases htt : t = ""
        · subst htt
          refine ⟨project, ?_, rfl, ?_, ?_⟩
          · simp [addProject, ProjectStore.addProject, hps', optTruthy]
          · intro t' ht' hf hne
            have h2 : "" = t' := Option.some.inj (Except.ok.inj ht')
            exact absurd h2.symm hne
          · rintro (h | h) <;> exact absurd h (by simp)
        · refine ⟨{ project with aiSummary := some t }, ?_, rfl, ?_, ?_⟩
          · have htt' : optTruthy (some t) = true := optTruthy_of_ne t htt
            simp [addProject, ProjectStore.addProject, hps', htt']
          · intro t' ht' hf hne
            have h2 : t = t' := Option.some.inj (Except.ok.inj ht')
            show some t = some t'
            exact congrArg some h2
          · rintro (h | h) <;> exact absurd h (by simp)

/-- C7: whatever the summarizer outcome, `addProject` inserts the record at
the front of the store; the persisted record differs from the given one at
most in `aiSummary`, which is set when the record lacked a summary and the
summarizer returned a non-empty one, and left as it was when the summarizer
threw or returned nothing — in particular the failure is never propagated
(the operation is total and still inserts). -/
theorem addProject_always_inserts (summ : Except Unit (Option String))
    (project : ProjectData) (s : ProjectStore) :
    ∃ q, (addProject summ project s).projects = q :: s.projects ∧
      { q with aiSummary := project.aiSummary } = project ∧
      (∀ t, summ = Except.ok (some t) →
        optTruthy project.aiSummary = false → t ≠ "" →
        q.aiSummary = some t) ∧
      ((summ = Except.error () ∨ summ = Except.ok none) →
        q.aiSummary = project.aiSummary) :=
  addProject_shape summ project s

/-- Witness for C7, at the failing summarizer outcome: the record is still
inserted, unchanged. -/
theorem addProject_always_inserts_witness :
    ∃ q, (addProject (Except.error ()) recPubW storeW).projects =
        q :: storeW.projects ∧
      { q with aiSummary := recPubW.aiSummary } = recPubW :=
  (addProject_always_inserts (Except.error ()) recPubW storeW).elim
    (fun q hq => ⟨q, hq.1, hq.2.1⟩)

/-! ### The creation round trip -/

theorem createProject_creator_ne (dir : Directory) (rand : Nat → Fin 62)
    (frac : String) (now : Nat) (title description : String)
    (departmentId year : Nat) (accessLevel : AccessLevel)
    (ipfsHash authorAddress : String) (s : ProjectStore) :
    (createProject dir rand frac now title description departmentId year
      accessLevel ipfsHash authorAddress s).creatorAddress ≠ "" := by
  show (if authorAddress == "" then "0x" ++ frac else authorAddress) ≠ ""
  by_cases h : (authorAddress == "") = true
  · rw [if_pos h]
    intro hc
    have hlen := congrArg String.length hc
    rw [String.length_append] at hlen
    rw [show ("0x" : String).length = 2 from rfl,
      show ("" : String).length = 0 from rfl] at hlen
    omega
  · rw [if_neg h]
    intro hc
    exact h (beq_iff_eq.mpr hc)

theorem createProject_authors (dir : Directory) (rand : Nat → Fin 62)
    (frac : String) (now : Nat) (title description : String)
    (departmentId year : Nat) (accessLevel : AccessLevel)
    (ipfsHash authorAddress : String) (s : ProjectStore) :
    (createProject dir rand frac now title description departmentId year
      accessLevel ipfsHash authorAddress s).authors =
      [(createProject dir rand frac now title description departmentId year
        accessLevel ipfsHash authorAddress s).creatorAddress] := rfl

/-- C8: creating a record, inserting it with `addProject`, and fetching it
by its id with its own creator identity as viewer returns a record equal to
the created one in every field except possibly `aiSummary`. -/
theorem create_add_get_roundtrip (dir : Directory) (rand : Nat → Fin 62)
    (frac : String) (now : Nat) (title description : String)
    (departmentId year : Nat) (accessLevel : AccessLevel)
    (ipfsHash authorAddress : String) (s : ProjectStore)
    (summ : Except Unit (Option String)) :
    ∃ q,
      getProjectById dir
        (createProject dir rand frac now title description departmentId year
          accessLevel ipfsHash authorAddress s).id
        (some (createProject dir rand frac now title description departmentId
          year accessLevel ipfsHash authorAddress s).creatorAddress)
        (addProject summ
          (createProject dir rand frac now title description departmentId
            year accessLevel ipfsHash authorAddress s) s) = some q ∧
      { q with aiSummary :=
          (createProject dir rand frac now title description departmentId
            year accessLevel ipfsHash authorAddress s).aiSummary } =
        createProject dir rand frac now title description departmentId year
          accessLevel ipfsHash authorAddress s := by
  set r := createProject dir rand frac now title description departmentId
    year accessLevel ipfsHash authorAddress s with hrdef
  obtain ⟨q, hq1, hq2, _, _⟩ := addProject_shape summ r s
  have hqid : q.id = r.id := by rw [← hq2]
  have hqauth : q.authors = r.authors := by rw [← hq2]
  have hfind : (addProject summ r s).projects.find?
      (fun p => p.id == r.id) = some q := by
    rw [hq1]
    apply List.find?_cons_of_pos
    simp [hqid]
  have hv : r.creatorAddress ≠ "" := by
    rw [hrdef]
    exact createProject_creator_ne dir rand frac now title description
      departmentId year accessLevel ipfsHash authorAddress s
  have hmem : r.creatorAddress ∈ q.authors := by
    rw [hqauth, hrdef, createProject_authors]
    exact List.mem_singleton_self _
  exact ⟨q,
    (getProjectById_eq_some_iff dir r.id r.creatorAddress hv
        (addProject summ r s) q hfind).mpr (Or.inr (Or.inl hmem)),
    hq2⟩

/-- Witness for C8, with a non-trivial store, a fabricated author, a
`Private` level, and a succeeding summarizer. -/
theorem create_add_get_roundtrip_witness :
    ∃ q,
      getProjectById noDir
        (createProject noDir (fun _ => 0) "ff" 11 "T" "D" 1 2024
          AccessLevel.Private "" "" storeW).id
        (some (createProject noDir (fun _ => 0) "ff" 11 "T" "D" 1 2024
          AccessLevel.Private "" "" storeW).creatorAddress)
        (addProject (Except.ok (some "sum"))
          (createProject noDir (fun _ => 0) "ff" 11 "T" "D" 1 2024
            AccessLevel.Private "" "" storeW) storeW) = some q ∧
      { q with aiSummary :=
          (createProject noDir (fun _ => 0) "ff" 11 "T" "D" 1 2024
            AccessLevel.Private "" "" storeW).aiSummary } =
        createProject noDir (fun _ => 0) "ff" 11 "T" "D" 1 2024
          AccessLevel.Private "" "" storeW :=
  create_add_get_roundtrip noDir (fun _ => 0) "ff" 11 "T" "D" 1 2024
    AccessLevel.Private "" "" storeW (Except.ok (some "sum"))

/-! ### Concurrent creations -/

/-- The record produced by the first of two interleaved creations on the
empty store (its `createProject` call observes the empty store). -/
def recA : ProjectData :=
  createProject noDir (fun _ => 0) "aa" 0 "TA" "DA" 1 2024
    AccessLevel.Public "" "" emptyStore

/-- The record produced by the second interleaved creation: its
`createProject` call also observes the empty store, because the first
creation's `addProject` is still suspended awaiting the summarizer (id
assignment and insertion are separate, unsynchronized calls). -/
def recB : ProjectData :=
  createProject noDir (fun _ => 0) "bb" 0 "TB" "DB" 1 2024
    AccessLevel.Public "" "" emptyStore

/-- C9 refutation on the code as written: in the interleaving
`A.createProject; B.createProject; A.addProject; B.addProject` — which the
code permits, since `createProject` only reads the store and `addProject`
suspends at the summarizer await before inserting — both creations are
assigned id 1, so the two "concurrent" creations receive the same id and
the resulting id multiset is `[1, 1]`, not pairwise distinct. -/
theorem concurrent_creations_duplicate_id :
    recA.id = 1 ∧ recB.id = 1 ∧
    (addProject (Except.error ()) recB
        (addProject (Except.error ()) recA emptyStore)).projects.map
      (fun p => p.id) = [1, 1] ∧
    ¬ ([recA.id, recB.id].Nodup) :=
  ⟨rfl, rfl, rfl, by decide⟩

/-! ### Fabricated defaults -/

/-- C10: for every call with `ipfsHash = ""` — whatever the author
argument — the created record's hash is the fabricated one, `Qm` followed
by 44 characters from the alphanumeric set; and for every call with
`authorAddress = ""` — whatever the hash argument — the fabricated
pseudo-identity `0x` ++ frac is both the sole author and the creator
identity. -/
theorem createProject_empty_args_fabricates (dir : Directory)
    (rand : Nat → Fin 62) (frac : String) (now : Nat)
    (title description : String) (departmentId year : Nat)
    (accessLevel : AccessLevel) (ipfsHash authorAddress : String)
    (s : ProjectStore) :
    (createProject dir rand frac now title description departmentId year
      accessLevel "" authorAddress s).ipfsHash = generateMockIpfsHash rand ∧
    (generateMockIpfsHash rand).data.length = 46 ∧
    (generateMockIpfsHash rand).data.take 2 = ['Q', 'm'] ∧
    (∀ c ∈ (generateMockIpfsHash rand).data.drop 2, c ∈ characters) ∧
    (createProject dir rand frac now title description departmentId year
      accessLevel ipfsHash "" s).authors =
      ["0x" ++ frac] ∧
    (createProject dir rand frac now title description departmentId year
      accessLevel ipfsHash "" s).creatorAddress = "0x" ++ frac := by
  refine ⟨rfl, ?_, rfl, ?_, rfl, rfl⟩
  · show ('Q' :: 'm' :: (List.range 44).map _).length = 46
    simp [List.length_map, List.length_range]
  · intro c hc
    have hc' : c ∈ (List.range 44).map (fun i =>
        characters.get (Fin.cast characters_length.symm (rand i))) := hc
    obtain ⟨i, _, hi⟩ := List.mem_map.mp hc'
    rw [← hi]
    exact List.get_mem characters _ _

/-- Witness for C10 at a concrete random stream and fraction string, with
a supplied author address for the empty-hash conjunct and a supplied hash
for the empty-author conjunct. -/
theorem createProject_empty_args_fabricates_witness :
    (createProject noDir (fun _ => 0) "abc" 5 "T" "D" 1 2024
      AccessLevel.Public "" "0xA" emptyStore).ipfsHash =
        generateMockIpfsHash (fun _ => 0) ∧
    (generateMockIpfsHash (fun _ => (0 : Fin 62))).data.length = 46 ∧
    (generateMockIpfsHash (fun _ => (0 : Fin 62))).data.take 2 =
      ['Q', 'm'] ∧
    (∀ c ∈ (generateMockIpfsHash (fun _ => (0 : Fin 62))).data.drop 2,
      c ∈ characters) ∧
    (createProject noDir (fun _ => 0) "abc" 5 "T" "D" 1 2024
      AccessLevel.Public "Qmh" "" emptyStore).authors = ["0x" ++ "abc"] ∧
    (createProject noDir (fun _ => 0) "abc" 5 "T" "D" 1 2024
      AccessLevel.Public "Qmh" "" emptyStore).creatorAddress =
      "0x" ++ "abc" :=
  createProject_empty_args_fabricates noDir (fun _ => 0) "abc" 5 "T" "D" 1
    2024 AccessLevel.Public "Qmh" "0xA" emptyStore
